import Mathlib

/-!
Verification of the PacmanIST concurrent session server.

Shallow embedding of the server's dispatch queue (board.c, `main` /
`worker_task`), the per-session thread choreography (server/game.c), the
movement rule engine (`move_pacman` in board.c), the score-board report
handler (`handle_sigusr1`), and the worker's level-file resolution
(`sort_level_files` / `worker_task`).
-/

namespace PacmanIST

/-! ## Dispatch queue (board.c: `session_buffer`, `sem_empty`, `sem_full`)

A session record holds the two pipe names copied from the connect request
(`game_session_t`).  The queue state mirrors the globals `session_buffer`,
`buffer_size`, `buffer_in`, `buffer_out` and the two counting semaphores.
Enqueue (acceptor, board.c:1513-1520) and dequeue (worker, board.c:1298-1304)
are modelled as atomic steps: each step performs the sem_wait (its guard),
the mutex-protected index update and record copy, and the sem_post.  -/

structure GameSession where
  req_pipe : List Char
  notif_pipe : List Char
deriving Repr, DecidableEq, Inhabited

structure QState where
  buffer_size : Nat
  session_buffer : List GameSession
  buffer_in : Nat
  buffer_out : Nat
  sem_empty : Nat
  sem_full : Nat
deriving Repr, DecidableEq

/-- Server start-up (board.c main): `buffer_size = max_games`,
`sem_init(&sem_empty, 0, buffer_size)`, `sem_init(&sem_full, 0, 0)`,
`session_buffer = calloc(buffer_size, ...)`. -/
def initQState (max_games : Nat) : QState :=
  { buffer_size := max_games
    session_buffer := List.replicate max_games default
    buffer_in := 0
    buffer_out := 0
    sem_empty := max_games
    sem_full := 0 }

/-- The command-line surface of `main`: levels_dir, max_games, fifo_name. -/
structure ServerConfig where
  levels_dir : List Char
  max_games : Nat
  fifo_name : List Char

/-- `create_threads(max_games)` spawns exactly `max_games` workers. -/
def num_worker_threads (cfg : ServerConfig) : Nat := cfg.max_games

/-- The queue as `main` initializes it from the command line. -/
def server_init_queue (cfg : ServerConfig) : QState := initQState cfg.max_games

/-- Effect of the acceptor's enqueue (board.c:1513-1520) once
`sem_wait(&sem_empty)` has succeeded. -/
def enqueueStep (s : QState) (r : GameSession) : QState :=
  { s with session_buffer := s.session_buffer.set s.buffer_in r
           buffer_in := (s.buffer_in + 1) % s.buffer_size
           sem_empty := s.sem_empty - 1
           sem_full := s.sem_full + 1 }

/-- The record a dequeue delivers: `session_buffer[buffer_out]`. -/
def dequeuedRecord (s : QState) : GameSession :=
  s.session_buffer.getD s.buffer_out default

/-- Effect of a worker's dequeue (board.c:1298-1304) once
`sem_wait(&sem_full)` has succeeded. -/
def dequeueStep (s : QState) : QState :=
  { s with buffer_out := (s.buffer_out + 1) % s.buffer_size
           sem_full := s.sem_full - 1
           sem_empty := s.sem_empty + 1 }

inductive QEvent where
  | enq (r : GameSession)
  | deq (r : GameSession)
deriving Repr, DecidableEq

/-- One atomic queue operation.  A step is enabled exactly when its
`sem_wait` would not block. -/
inductive QStep : QState → QEvent → QState → Prop where
  | enq (s : QState) (r : GameSession) (h : 0 < s.sem_empty) :
      QStep s (.enq r) (enqueueStep s r)
  | deq (s : QState) (h : 0 < s.sem_full) :
      QStep s (.deq (dequeuedRecord s)) (dequeueStep s)

/-- Reachability along a trace of interleaved enqueue/dequeue steps. -/
inductive QReach (init : QState) : List QEvent → QState → Prop where
  | refl : QReach init [] init
  | step {t : List QEvent} {s : QState} {e : QEvent} {s' : QState} :
      QReach init t s → QStep s e s' → QReach init (t ++ [e]) s'

/-- The records enqueued along a trace, in order. -/
def enqueued : List QEvent → List GameSession
  | [] => []
  | .enq r :: t => r :: enqueued t
  | .deq _ :: t => enqueued t

/-- The records delivered by dequeues along a trace, in order. -/
def dequeued : List QEvent → List GameSession
  | [] => []
  | .enq _ :: t => dequeued t
  | .deq r :: t => r :: dequeued t

theorem enqueued_append (a b : List QEvent) :
    enqueued (a ++ b) = enqueued a ++ enqueued b := by
  induction a with
  | nil => rfl
  | cons e t ih => cases e <;> simp [enqueued, ih]

theorem dequeued_append (a b : List QEvent) :
    dequeued (a ++ b) = dequeued a ++ dequeued b := by
  induction a with
  | nil => rfl
  | cons e t ih => cases e <;> simp [dequeued, ih]

/-- The full inductive invariant of the circular buffer. -/
structure QInv (cap : Nat) (t : List QEvent) (s : QState) : Prop where
  size_eq : s.buffer_size = cap
  buf_len : s.session_buffer.length = cap
  deq_le : (dequeued t).length ≤ (enqueued t).length
  fifo : dequeued t = (enqueued t).take (dequeued t).length
  full_eq : s.sem_full = (enqueued t).length - (dequeued t).length
  full_le : s.sem_full ≤ cap
  empty_eq : s.sem_empty = cap - s.sem_full
  in_eq : s.buffer_in = (enqueued t).length % cap
  out_eq : s.buffer_out = (dequeued t).length % cap
  buf_content : ∀ k, (dequeued t).length ≤ k → k < (enqueued t).length →
      s.session_buffer.getD (k % cap) default = (enqueued t).getD k default

theorem getD_set_self {α : Type} (l : List α) (i : Nat) (a d : α)
    (h : i < l.length) : (l.set i a).getD i d = a := by
  induction l generalizing i with
  | nil => simp at h
  | cons x xs ih =>
    cases i with
    | zero => rfl
    | succ j => simpa [List.set, List.getD] using ih j (by simpa using h)

theorem getD_set_other {α : Type} (l : List α) (i j : Nat) (a d : α)
    (h : i ≠ j) : (l.set i a).getD j d = l.getD j d := by
  induction l generalizing i j with
  | nil => rfl
  | cons x xs ih =>
    cases i with
    | zero =>
      cases j with
      | zero => exact absurd rfl h
      | succ j' => rfl
    | succ i' =>
      cases j with
      | zero => rfl
      | succ j' =>
        simpa [List.set, List.getD] using ih i' j' (fun hc => h (by omega))

theorem succ_mod_eq (n cap : Nat) : (n % cap + 1) % cap = (n + 1) % cap := by
  conv_rhs => rw [Nat.add_mod]
  rw [Nat.add_mod (n % cap) 1, Nat.mod_mod]

theorem take_append_left {α : Type} (l₁ l₂ : List α) (n : Nat)
    (h : n ≤ l₁.length) : (l₁ ++ l₂).take n = l₁.take n := by
  rw [List.take_append_eq_append_take, Nat.sub_eq_zero_of_le h, List.take_zero,
    List.append_nil]

theorem take_snoc_getD {α : Type} [Inhabited α] (E : List α) (d : Nat)
    (hlt : d < E.length) :
    E.take d ++ [E.getD d default] = E.take (d + 1) := by
  rw [List.getD_eq_getElem _ _ hlt, ← List.take_concat_get _ _ hlt,
    List.concat_eq_append]

theorem mod_ne_of_between {k n cap : Nat} (hk : k < n) (hlt : n - k < cap) :
    k % cap ≠ n % cap := by
  intro h
  have hdvd : cap ∣ n - k := (Nat.modEq_iff_dvd' (Nat.le_of_lt hk)).mp h
  have := Nat.le_of_dvd (by omega) hdvd
  omega

theorem qreach_inv {cap : Nat} (hcap : 0 < cap) {t : List QEvent} {s : QState}
    (h : QReach (initQState cap) t s) : QInv cap t s := by
  induction h with
  | refl =>
    refine ⟨rfl, by simp [initQState], ?_, ?_, ?_, ?_, ?_, ?_, ?_, ?_⟩ <;>
      simp [initQState, enqueued, dequeued]
  | @step t s e s' hr hs ih =>
    obtain ⟨size_eq, buf_len, deq_le, fifo, full_eq, full_le, empty_eq, in_eq,
      out_eq, buf_content⟩ := ih
    cases hs with
    | enq r hen =>
      have hfull_lt : s.sem_full < cap := by omega
      constructor
      · exact size_eq
      · simpa [enqueueStep] using buf_len
      · simp only [enqueued_append, dequeued_append, enqueued, dequeued,
          List.append_nil, List.length_append, List.length_cons,
          List.length_nil]
        omega
      · simp only [enqueued_append, dequeued_append, enqueued, dequeued,
          List.append_nil]
        rw [take_append_left _ _ _ (by omega)]
        exact fifo
      · simp only [enqueueStep, enqueued_append, dequeued_append, enqueued,
          dequeued, List.append_nil, List.length_append, List.length_cons,
          List.length_nil]
        omega
      · simp only [enqueueStep]
        omega
      · simp only [enqueueStep]
        omega
      · simp only [enqueueStep, enqueued_append, enqueued, List.append_nil,
          List.length_append, List.length_cons, List.length_nil, size_eq,
          in_eq]
        rw [succ_mod_eq]
      · simp only [enqueueStep, dequeued_append, dequeued, List.append_nil]
        exact out_eq
      · intro k hk1 hk2
        simp only [enqueued_append, dequeued_append, enqueued, dequeued,
          List.append_nil, List.length_append, List.length_cons,
          List.length_nil] at hk1 hk2 ⊢
        simp only [enqueueStep]
        by_cases hke : k = (enqueued t).length
        · subst hke
          rw [in_eq, getD_set_self _ _ _ _
            (by rw [buf_len]; exact Nat.mod_lt _ hcap)]
          rw [List.getD_append_right _ _ _ _ le_rfl]
          simp
        · have hklt : k < (enqueued t).length := by omega
          have hsub : (enqueued t).length - k < cap := by omega
          rw [in_eq,
            getD_set_other _ _ _ _ _
              (fun hc => mod_ne_of_between hklt hsub hc.symm),
            List.getD_append _ _ _ _ hklt]
          exact buf_content k hk1 hklt
    | deq hfu =>
      have hdlt : (dequeued t).length < (enqueued t).length := by omega
      have hrec : dequeuedRecord s = (enqueued t).getD (dequeued t).length
          default := by
        rw [dequeuedRecord, out_eq]
        exact buf_content _ le_rfl hdlt
      constructor
      · exact size_eq
      · simpa [dequeueStep] using buf_len
      · simp only [enqueued_append, dequeued_append, enqueued, dequeued,
          List.append_nil, List.length_append, List.length_cons,
          List.length_nil]
        omega
      · simp only [enqueued_append, dequeued_append, enqueued, dequeued,
          List.append_nil, List.length_append, List.length_cons,
          List.length_nil]
        rw [Nat.zero_add, hrec]
        nth_rewrite 1 [fifo]
        exact take_snoc_getD _ _ hdlt
      · simp only [dequeueStep, enqueued_append, dequeued_append, enqueued,
          dequeued, List.append_nil, List.length_append, List.length_cons,
          List.length_nil]
        omega
      · simp only [dequeueStep]
        omega
      · simp only [dequeueStep]
        omega
      · simp only [dequeueStep, enqueued_append, enqueued, List.append_nil]
        exact in_eq
      · simp only [dequeueStep, dequeued_append, dequeued, List.append_nil,
          List.length_append, List.length_cons, List.length_nil, size_eq,
          out_eq]
        rw [Nat.zero_add, succ_mod_eq]
      · intro k hk1 hk2
        simp only [enqueued_append, dequeued_append, enqueued, dequeued,
          List.append_nil, List.length_append, List.length_cons,
          List.length_nil] at hk1 hk2 ⊢
        simp only [dequeueStep]
        exact buf_content k (by omega) hk2

/-- C1: for the dispatch queue (`session_buffer` with `sem_empty` and
`sem_full`), at every reachable state of the enqueue/dequeue step relation
the number of occupied slots (`sem_full`) plus the number of free slots
(`sem_empty`) equals the capacity (`buffer_size`), the occupied count stays
in [0, capacity], and the capacity equals the worker-pool size `max_games`
given on the command line. -/
theorem dispatch_queue_capacity_invariant (cfg : ServerConfig)
    (hpos : 0 < cfg.max_games) (t : List QEvent) (s : QState)
    (h : QReach (server_init_queue cfg) t s) :
    s.sem_full + s.sem_empty = s.buffer_size ∧
    s.sem_full ≤ s.buffer_size ∧
    s.buffer_size = num_worker_threads cfg := by
  have inv := qreach_inv hpos h
  refine ⟨?_, ?_, ?_⟩
  · rw [inv.empty_eq, inv.size_eq]
    have := inv.full_le
    omega
  · rw [inv.size_eq]
    exact inv.full_le
  · rw [inv.size_eq]
    rfl

/-- Witness for C1 at `max_games = 2` and the empty trace. -/
theorem dispatch_queue_capacity_invariant_witness :
    (server_init_queue ⟨[], 2, []⟩).sem_full +
        (server_init_queue ⟨[], 2, []⟩).sem_empty =
      (server_init_queue ⟨[], 2, []⟩).buffer_size ∧
    (server_init_queue ⟨[], 2, []⟩).sem_full ≤
      (server_init_queue ⟨[], 2, []⟩).buffer_size ∧
    (server_init_queue ⟨[], 2, []⟩).buffer_size =
      num_worker_threads ⟨[], 2, []⟩ :=
  dispatch_queue_capacity_invariant ⟨[], 2, []⟩ (by decide) [] _ QReach.refl

/-- C2: along every interleaved trace of enqueue steps (acceptor) and
dequeue steps (workers), the number of successful dequeues never exceeds
the number of completed enqueues, and the list of delivered records is
exactly the prefix of the enqueued records: the i-th dequeue delivers the
i-th enqueued record (FIFO, and no record is delivered twice). -/
theorem dispatch_queue_fifo_no_duplication (cfg : ServerConfig)
    (hpos : 0 < cfg.max_games) (t : List QEvent) (s : QState)
    (h : QReach (server_init_queue cfg) t s) :
    (dequeued t).length ≤ (enqueued t).length ∧
    dequeued t = (enqueued t).take (dequeued t).length := by
  have inv := qreach_inv hpos h
  exact ⟨inv.deq_le, inv.fifo⟩

/-- A concrete session record used in witnesses. -/
def wSession : GameSession := ⟨['r'], ['n']⟩

/-- Witness for C2: one enqueue followed by one dequeue with pool size 2;
the dequeue delivers the enqueued record. -/
theorem dispatch_queue_fifo_no_duplication_witness :
    (dequeued [QEvent.enq wSession, QEvent.deq wSession]).length ≤
      (enqueued [QEvent.enq wSession, QEvent.deq wSession]).length ∧
    dequeued [QEvent.enq wSession, QEvent.deq wSession] =
      (enqueued [QEvent.enq wSession, QEvent.deq wSession]).take
        (dequeued [QEvent.enq wSession, QEvent.deq wSession]).length := by
  have h1 : QReach (server_init_queue ⟨[], 2, []⟩) [QEvent.enq wSession]
      (enqueueStep (server_init_queue ⟨[], 2, []⟩) wSession) := by
    have h0 : QReach (server_init_queue ⟨[], 2, []⟩) []
        (server_init_queue ⟨[], 2, []⟩) := QReach.refl
    have := QReach.step h0 (QStep.enq _ wSession (by decide))
    simpa using this
  have h2 := QReach.step h1
    (QStep.deq (enqueueStep (server_init_queue ⟨[], 2, []⟩) wSession)
      (by decide))
  have heq : dequeuedRecord
      (enqueueStep (server_init_queue ⟨[], 2, []⟩) wSession) = wSession := by
    decide
  rw [heq] at h2
  exact dispatch_queue_fifo_no_duplication ⟨[], 2, []⟩ (by decide) _ _ h2

/-! ## Game control codes (board.h) and protocol opcodes (protocol.h) -/

def CONTINUE_PLAY : Int := 0
def NEXT_LEVEL : Int := 1
def QUIT_GAME : Int := 2
def LOAD_BACKUP : Int := 3

def REACHED_PORTAL : Int := 1
def VALID_MOVE : Int := 0
def INVALID_MOVE : Int := -1
def DEAD_PACMAN : Int := -2

def OP_CONNECT : Int := 1
def OP_DISCONNECT : Int := 2
def OP_MOVE : Int := 3
def OP_UPDATE : Int := 4

/-! ## Session thread choreography (server/game.c)

`pacman_thread` drives the player entity.  One cycle of its loop makes, in
program order, three observations of the shared state: `pacman->alive` at
the top of the loop, the return value of `move_pacman`, and
`board->shutdown` under a read lock after the move.  A trace of such
observations determines the thread's exit value. -/

structure CycleObs where
  alive : Bool
  moveResult : Int
  shutdown : Bool
deriving Repr, DecidableEq

/-- The exit value of `pacman_thread` (game.c:212-266) along a trace of
cycle observations.  `*retval` starts at QUIT_GAME; a dead pacman or a
DEAD_PACMAN move result stores LOAD_BACKUP, REACHED_PORTAL stores
NEXT_LEVEL, and a set shutdown flag breaks with the initial QUIT_GAME.
`none` means the trace ended with the loop still running. -/
def pacman_thread_exit : List CycleObs → Option Int
  | [] => none
  | c :: rest =>
    if !c.alive then some LOAD_BACKUP
    else if c.moveResult = REACHED_PORTAL then some NEXT_LEVEL
    else if c.moveResult = DEAD_PACMAN then some LOAD_BACKUP
    else if c.shutdown then some QUIT_GAME
    else pacman_thread_exit rest

/-- The observable actions of `run_game_logic` (game.c:318-373) in program
order: thread creations, the blocking join of the pacman thread, the
setting of the termination flag, and the remaining joins. -/
inductive RunEvent where
  | createUpdateThread
  | createPacmanThread
  | createListenerThread
  | createGhostThread (i : Nat)
  | joinPacmanThread
  | setShutdownFlag
  | joinListenerThread
  | joinUpdateThread
  | joinGhostThread (i : Nat)
deriving Repr, DecidableEq

def run_game_logic_events (n_ghosts : Nat) : List RunEvent :=
  [.createUpdateThread, .createPacmanThread, .createListenerThread] ++
    (List.range n_ghosts).map .createGhostThread ++
    [.joinPacmanThread, .setShutdownFlag, .joinListenerThread,
      .joinUpdateThread] ++
    (List.range n_ghosts).map .joinGhostThread

/-- `run_game_logic` returns `*retval` read from joining the pacman
thread; the stage outcome is exactly the pacman thread's exit value. -/
def run_game_logic_result (trace : List CycleObs) : Option Int :=
  pacman_thread_exit trace

/-- C3: the stage's terminal outcome is exactly the pacman thread's exit
value read after joining it: REACHED_PORTAL yields NEXT_LEVEL, a fatal
collision (DEAD_PACMAN) or a dead pacman yields LOAD_BACKUP, and any other
move result continues the loop unless the termination flag is set (in which
case the initial QUIT_GAME value is returned); and in `run_game_logic` the
pacman join precedes the setting of the termination flag, which precedes
the joins of the listener, broadcaster (update thread) and ghost threads. -/
theorem stage_outcome_is_pacman_exit_value (n_ghosts : Nat) (c : CycleObs)
    (rest : List CycleObs) :
    run_game_logic_result (c :: rest) = pacman_thread_exit (c :: rest) ∧
    (c.alive = true → c.moveResult = REACHED_PORTAL →
      pacman_thread_exit (c :: rest) = some NEXT_LEVEL) ∧
    (c.alive = false →
      pacman_thread_exit (c :: rest) = some LOAD_BACKUP) ∧
    (c.alive = true → c.moveResult = DEAD_PACMAN →
      pacman_thread_exit (c :: rest) = some LOAD_BACKUP) ∧
    (c.alive = true → c.moveResult ≠ REACHED_PORTAL →
      c.moveResult ≠ DEAD_PACMAN → c.shutdown = false →
      pacman_thread_exit (c :: rest) = pacman_thread_exit rest) ∧
    (c.alive = true → c.moveResult ≠ REACHED_PORTAL →
      c.moveResult ≠ DEAD_PACMAN → c.shutdown = true →
      pacman_thread_exit (c :: rest) = some QUIT_GAME) ∧
    (∃ pre post, run_game_logic_events n_ghosts =
        pre ++ .joinPacmanThread :: .setShutdownFlag ::
          .joinListenerThread :: .joinUpdateThread :: post ∧
      RunEvent.setShutdownFlag ∉ pre ∧
      RunEvent.joinListenerThread ∉ pre ∧
      RunEvent.joinUpdateThread ∉ pre ∧
      (∀ i, RunEvent.joinGhostThread i ∉ pre) ∧
      (∀ i, i < n_ghosts ↔ RunEvent.joinGhostThread i ∈ post)) := by
  refine ⟨rfl, ?_, ?_, ?_, ?_, ?_, ?_⟩
  · intro ha hp
    simp [pacman_thread_exit, ha, hp]
  · intro ha
    simp [pacman_thread_exit, ha]
  · intro ha hd
    simp [pacman_thread_exit, ha, hd, DEAD_PACMAN, REACHED_PORTAL,
      LOAD_BACKUP]
  · intro ha hp hd hs
    simp [pacman_thread_exit, ha, hp, hd, hs]
  · intro ha hp hd hs
    simp [pacman_thread_exit, ha, hp, hd, hs]
  · refine ⟨[.createUpdateThread, .createPacmanThread, .createListenerThread]
      ++ (List.range n_ghosts).map .createGhostThread,
      (List.range n_ghosts).map .joinGhostThread, ?_, ?_, ?_, ?_, ?_, ?_⟩
    · simp [run_game_logic_events]
    · simp
    · simp
    · simp
    · intro i
      simp
    · intro i
      simp

/-- Witness for C3: a one-cycle trace reaching the portal ends the stage
with NEXT_LEVEL. -/
theorem stage_outcome_is_pacman_exit_value_witness :
    pacman_thread_exit [⟨true, REACHED_PORTAL, false⟩] = some NEXT_LEVEL :=
  (stage_outcome_is_pacman_exit_value 2 ⟨true, REACHED_PORTAL, false⟩
      []).2.1 rfl rfl

/-! ## The pending-command mailbox (`next_user_move`) -/

structure Command where
  command : Char
  turns : Int
  turns_left : Int
deriving Repr, DecidableEq, Inhabited

structure PacmanT where
  pos_x : Int
  pos_y : Int
  alive : Bool
  points : Int
  passo : Int
  moves : List Command
  current_move : Int
  n_moves : Int
  waiting : Int
  next_user_move : Char
deriving Repr, DecidableEq, Inhabited

/-- The listener's OP_MOVE action (game.c:78-82):
`board->pacmans[0].next_user_move = move.key` under the write lock. -/
def mailbox_write (next_user_move : Char) (key : Char) : Char := key

/-- The pacman driver's command choice (game.c:233-244), performed under
the write lock: a non-empty mailbox is consumed and cleared; otherwise the
current entry of the scripted sequence is used when one exists; otherwise
the blank command `{' ', 0, 0}`. -/
def choose_command (p : PacmanT) : Command × PacmanT :=
  if p.next_user_move ≠ ' ' then
    ({ command := p.next_user_move, turns := 0, turns_left := 0 },
      { p with next_user_move := ' ' })
  else if p.n_moves > 0 then
    (p.moves.getD (p.current_move % p.n_moves).toNat default, p)
  else
    ({ command := ' ', turns := 0, turns_left := 0 }, p)

/-- C4: `next_user_move` is a single-slot last-write-wins mailbox: two
listener writes before the driver's next consume leave only the second
one (writing C1 then C2 equals writing C2 alone), the driver observes the
second one, and consuming clears the slot to the empty value `' '`. -/
theorem mailbox_last_write_wins (p : PacmanT) (c1 c2 : Char)
    (h2 : c2 ≠ ' ') :
    mailbox_write (mailbox_write p.next_user_move c1) c2 =
      mailbox_write p.next_user_move c2 ∧
    (choose_command { p with next_user_move := mailbox_write (mailbox_write p.next_user_move c1) c2 }).1.command = c2 ∧
    (choose_command { p with next_user_move := mailbox_write (mailbox_write p.next_user_move c1) c2 }).2.next_user_move = ' ' := by
  refine ⟨rfl, ?_, ?_⟩ <;> simp [choose_command, mailbox_write, h2]

/-- Witness for C4 with writes 'w' then 's' on a default pacman. -/
theorem mailbox_last_write_wins_witness :
    mailbox_write (mailbox_write (default : PacmanT).next_user_move 'w') 's'
      = mailbox_write (default : PacmanT).next_user_move 's' ∧
    (choose_command { (default : PacmanT) with next_user_move := mailbox_write (mailbox_write (default : PacmanT).next_user_move 'w') 's' }).1.command = 's' ∧
    (choose_command { (default : PacmanT) with next_user_move := mailbox_write (mailbox_write (default : PacmanT).next_user_move 'w') 's' }).2.next_user_move = ' ' :=
  mailbox_last_write_wins default 'w' 's' (by decide)

/-- C5: in every driver cycle the command chosen under the write lock is
the buffered player command whenever the mailbox is non-empty — and then
the scripted sequence is never consulted: the choice is independent of the
`moves` field — and otherwise the current entry of the scripted sequence
when one exists. -/
theorem driver_buffered_command_priority (p : PacmanT) :
    (p.next_user_move ≠ ' ' →
      (choose_command p).1.command = p.next_user_move ∧
      ∀ ms, (choose_command { p with moves := ms }).1 =
        (choose_command p).1) ∧
    (p.next_user_move = ' ' → 0 < p.n_moves →
      (choose_command p).1 =
        p.moves.getD (p.current_move % p.n_moves).toNat default) := by
  constructor
  · intro h
    constructor
    · simp [choose_command, h]
    · intro ms
      simp [choose_command, h]
  · intro h hn
    simp [choose_command, h, hn]

/-- A pacman with a pending player command and a one-entry script, used in
the C5 witness. -/
def wPac : PacmanT :=
  { (default : PacmanT) with next_user_move := 'a', moves := [⟨'d', 1, 1⟩], n_moves := 1 }

/-- Witness for C5: a pacman with a pending 'a' and a script of 'd's
executes 'a', whatever the script holds. -/
theorem driver_buffered_command_priority_witness :
    (choose_command wPac).1.command = 'a' ∧
    (choose_command { wPac with moves := [] }).1 =
      (choose_command wPac).1 := by
  have h := driver_buffered_command_priority wPac
  exact ⟨(h.1 (by decide)).1, (h.1 (by decide)).2 []⟩

/-! ## The command listener (game.c: `input_listener_thread`) -/

structure MoveReq where
  op_code : Int
  key : Char
deriving Repr, DecidableEq

/-- sizeof(move_req_t): 1-byte opcode + 1-byte key. -/
def MOVE_REQ_SIZE : Nat := 2

/-- The per-session control state the listener touches. -/
structure BoardCtl where
  shutdown : Bool
  next_user_move : Char
deriving Repr, DecidableEq

/-- Outcome of one `read` on the request pipe, as the listener sees it. -/
inductive ReadEvent where
  | closed
  | failed
  | short_msg (nbytes : Nat)
  | full_msg (msg : MoveReq)
deriving Repr, DecidableEq

structure ListenerOut where
  ctl : BoardCtl
  exit_loop : Bool
  logged : Bool
deriving Repr, DecidableEq

/-- One iteration of `input_listener_thread`'s read loop (game.c:54-96).
A zero-length read sets the shutdown flag and breaks; a read error
continues; a short read logs a warning and continues; a full-size message
is dispatched on its opcode: OP_MOVE stores the key in the mailbox,
OP_DISCONNECT sets the shutdown flag and returns, anything else logs a
warning and continues.  No branch aborts the process. -/
def input_listener_step (b : BoardCtl) (ev : ReadEvent) : ListenerOut :=
  match ev with
  | .closed => ⟨{ b with shutdown := true }, true, false⟩
  | .failed => ⟨b, false, false⟩
  | .short_msg _ => ⟨b, false, true⟩
  | .full_msg m =>
    if m.op_code = OP_MOVE then
      ⟨{ b with next_user_move := m.key }, false, false⟩
    else if m.op_code = OP_DISCONNECT then
      ⟨{ b with shutdown := true }, true, false⟩
    else
      ⟨b, false, true⟩

/-- C6: a zero-length read or an explicit disconnect message sets the
termination flag and makes the listener exit; a short read (fewer bytes
than sizeof(move_req_t)) is logged and ignored, leaving the state unchanged
and the loop running; a full-size message with an unrecognized opcode is
discarded with the loop continuing and the state unchanged — no malformed
message sets the termination flag or escapes the loop. -/
theorem listener_error_handling (b : BoardCtl) (n : Nat) (k : Char)
    (m : MoveReq) (hn : 0 < n) (hn2 : n < MOVE_REQ_SIZE)
    (hop1 : m.op_code ≠ OP_MOVE) (hop2 : m.op_code ≠ OP_DISCONNECT) :
    (input_listener_step b .closed).ctl.shutdown = true ∧
    (input_listener_step b .closed).exit_loop = true ∧
    (input_listener_step b (.full_msg ⟨OP_DISCONNECT, k⟩)).ctl.shutdown
      = true ∧
    (input_listener_step b (.full_msg ⟨OP_DISCONNECT, k⟩)).exit_loop
      = true ∧
    (input_listener_step b (.short_msg n)).logged = true ∧
    (input_listener_step b (.short_msg n)).ctl = b ∧
    (input_listener_step b (.short_msg n)).exit_loop = false ∧
    (input_listener_step b (.full_msg m)).ctl = b ∧
    (input_listener_step b (.full_msg m)).exit_loop = false ∧
    (input_listener_step b (.full_msg m)).logged = true := by
  have h1 : m.op_code ≠ 3 := by simpa [OP_MOVE] using hop1
  have h2d : m.op_code ≠ 2 := by simpa [OP_DISCONNECT] using hop2
  refine ⟨rfl, rfl, ?_, ?_, rfl, rfl, rfl, ?_, ?_, ?_⟩ <;>
    simp [input_listener_step, h1, h2d, OP_MOVE, OP_DISCONNECT]

/-- Witness for C6: a 1-byte short read and an unknown opcode 9 on a live
session. -/
theorem listener_error_handling_witness :
    (input_listener_step ⟨false, ' '⟩ .closed).ctl.shutdown = true ∧
    (input_listener_step ⟨false, ' '⟩ .closed).exit_loop = true ∧
    (input_listener_step ⟨false, ' '⟩
      (.full_msg ⟨OP_DISCONNECT, 'q'⟩)).ctl.shutdown = true ∧
    (input_listener_step ⟨false, ' '⟩
      (.full_msg ⟨OP_DISCONNECT, 'q'⟩)).exit_loop = true ∧
    (input_listener_step ⟨false, ' '⟩ (.short_msg 1)).logged = true ∧
    (input_listener_step ⟨false, ' '⟩ (.short_msg 1)).ctl = ⟨false, ' '⟩ ∧
    (input_listener_step ⟨false, ' '⟩ (.short_msg 1)).exit_loop = false ∧
    (input_listener_step ⟨false, ' '⟩ (.full_msg ⟨9, 'x'⟩)).ctl
      = ⟨false, ' '⟩ ∧
    (input_listener_step ⟨false, ' '⟩ (.full_msg ⟨9, 'x'⟩)).exit_loop
      = false ∧
    (input_listener_step ⟨false, ' '⟩ (.full_msg ⟨9, 'x'⟩)).logged
      = true :=
  listener_error_handling ⟨false, ' '⟩ 1 'q' ⟨9, 'x'⟩ (by decide) (by decide)
    (by decide) (by decide)

/-! ## The acceptor's handshake (board.c main:1489-1522) -/

structure ConnectReq where
  op_code : Int
  req_pipe : List Char
  notif_pipe : List Char
deriving Repr, DecidableEq

structure ConnectResp where
  op_code : Int
  result : Int
deriving Repr, DecidableEq

/-- The wire form of a connect-response: 1-byte opcode + 1-byte result. -/
def connect_resp_bytes (r : ConnectResp) : List Int := [r.op_code, r.result]

/-- The observable actions of one acceptor iteration on a full-size
request. -/
inductive AcceptEvent where
  | open_client_pipe
  | write_resp (resp : ConnectResp)
  | close_client_pipe
  | enqueue_session (s : GameSession)
deriving Repr, DecidableEq

def is_write_resp : AcceptEvent → Bool
  | .write_resp _ => true
  | _ => false

/-- One iteration of the acceptor's loop body (board.c:1502-1521) for a
full-size connect request.  `open_ok` records whether
`open(req.notif_pipe, O_WRONLY)` succeeded.  On success the acceptor
writes `{op_code = OP_CONNECT, result = 0}`, closes the pipe and
enqueues; on failure it logs and continues — writing nothing. -/
def acceptor_process (req : ConnectReq) (open_ok : Bool) :
    List AcceptEvent :=
  if req.op_code = OP_CONNECT then
    if open_ok then
      [.open_client_pipe,
        .write_resp { op_code := OP_CONNECT, result := 0 },
        .close_client_pipe,
        .enqueue_session { req_pipe := req.req_pipe, notif_pipe := req.notif_pipe }]
    else
      [.open_client_pipe]
  else []

/-- Counterexample to C7: a well-formed connect-request whose response
channel cannot be opened is processed without any connect-response being
written — the "rejected or failed" case receives no (nonzero) response
code at all. -/
theorem acceptor_failed_connect_no_response_counterexample :
    acceptor_process ⟨OP_CONNECT, ['r'], ['n']⟩ false =
      [AcceptEvent.open_client_pipe] ∧
    (acceptor_process ⟨OP_CONNECT, ['r'], ['n']⟩ false).filter is_write_resp
      = [] := by
  constructor <;> rfl

/-- C7 (amended): for every well-formed connect-request whose response
channel opens successfully, the acceptor writes the two-byte
connect-response with result byte 0 (accepted) before enqueueing the
session; when the open fails, it writes no response and does not enqueue;
no execution ever writes a nonzero result byte. -/
theorem acceptor_connect_response (req : ConnectReq) (open_ok : Bool)
    (hok : req.op_code = OP_CONNECT) :
    (open_ok = true →
      acceptor_process req open_ok =
        [.open_client_pipe, .write_resp ⟨OP_CONNECT, 0⟩, .close_client_pipe,
          .enqueue_session ⟨req.req_pipe, req.notif_pipe⟩] ∧
      (connect_resp_bytes ⟨OP_CONNECT, 0⟩).length = 2) ∧
    (open_ok = false →
      acceptor_process req open_ok = [.open_client_pipe] ∧
      ∀ s, AcceptEvent.enqueue_session s ∉ acceptor_process req open_ok) ∧
    (∀ r, AcceptEvent.write_resp r ∈ acceptor_process req open_ok →
      r.result = 0) := by
  refine ⟨?_, ?_, ?_⟩
  · intro h
    subst h
    exact ⟨by simp [acceptor_process, hok], rfl⟩
  · intro h
    subst h
    refine ⟨by simp [acceptor_process, hok], ?_⟩
    intro s hs
    simp [acceptor_process, hok] at hs
  · intro r hr
    cases open_ok with
    | true =>
      simp [acceptor_process, hok] at hr
      rw [hr]
    | false =>
      simp [acceptor_process, hok] at hr

/-- Witness for the amended C7 at a concrete accepted request. -/
theorem acceptor_connect_response_witness :
    acceptor_process ⟨OP_CONNECT, ['r'], ['n']⟩ true =
      [.open_client_pipe, .write_resp ⟨OP_CONNECT, 0⟩, .close_client_pipe,
        .enqueue_session ⟨['r'], ['n']⟩] ∧
    (connect_resp_bytes ⟨OP_CONNECT, 0⟩).length = 2 :=
  (acceptor_connect_response ⟨OP_CONNECT, ['r'], ['n']⟩ true rfl).1 rfl

/-! ## The score-board report (board.c: `handle_sigusr1`, `compare_scores`) -/

structure ScoreEntry where
  client_id : Int
  score : Int
  active : Bool
deriving Repr, DecidableEq, Inhabited

/-- `compare_scores` (board.c:1195-1199): `eb->score - ea->score`, so the
sort is descending by score. -/
def compare_scores (a b : ScoreEntry) : Int := b.score - a.score

/-- `qsort` with `compare_scores` places `e` before `x` exactly when
`compare_scores e x ≤ 0`; modelled as an insertion sort with that
comparator (same sorted result on the copied array). -/
def qsort_insert (e : ScoreEntry) : List ScoreEntry → List ScoreEntry
  | [] => [e]
  | x :: xs =>
    if compare_scores e x ≤ 0 then e :: x :: xs else x :: qsort_insert e xs

def qsort_scores : List ScoreEntry → List ScoreEntry
  | [] => []
  | x :: xs => qsort_insert x (qsort_scores xs)

/-- The report body `handle_sigusr1` writes (board.c:1248-1275): scan the
sorted copy in order and emit entries with `score > 0 || active` until
five have been emitted. -/
def sigusr1_report (scoreboard : List ScoreEntry) : List ScoreEntry :=
  ((qsort_scores scoreboard).filter (fun e => 0 < e.score || e.active)).take 5

/-- The handler's actions in program order: all reading of the score board
(the memcpy of `scoreboard` into `sorted`) happens between the lock and
the unlock. -/
inductive ReportEvent where
  | lock_scoreboard
  | read_scoreboard
  | sort_entries
  | write_score_log
  | unlock_scoreboard
deriving Repr, DecidableEq

def handle_sigusr1_events : List ReportEvent :=
  [.lock_scoreboard, .read_scoreboard, .sort_entries, .write_score_log,
    .unlock_scoreboard]

/-- Descending-by-score order between two entries. -/
def score_desc (a b : ScoreEntry) : Prop := b.score ≤ a.score

theorem mem_qsort_insert (e y : ScoreEntry) (l : List ScoreEntry) :
    y ∈ qsort_insert e l ↔ y = e ∨ y ∈ l := by
  induction l with
  | nil => simp [qsort_insert]
  | cons x xs ih =>
    by_cases h : compare_scores e x ≤ 0
    · simp [qsort_insert, h]
    · simp [qsort_insert, h, ih]
      tauto

theorem pairwise_qsort_insert (e : ScoreEntry) (l : List ScoreEntry)
    (h : List.Pairwise score_desc l) :
    List.Pairwise score_desc (qsort_insert e l) := by
  induction l with
  | nil => simp [qsort_insert, List.Pairwise]
  | cons x xs ih =>
    rcases List.pairwise_cons.mp h with ⟨hx, hxs⟩
    by_cases hc : compare_scores e x ≤ 0
    · have hex : score_desc e x := by
        simp only [compare_scores] at hc
        simp only [score_desc]
        omega
      rw [qsort_insert, if_pos hc]
      refine List.pairwise_cons.mpr ⟨?_, h⟩
      intro y hy
      rcases hy with _ | hy
      · exact hex
      · have := hx y (by assumption)
        simp only [score_desc] at hex this ⊢
        omega
    · have hxe : score_desc x e := by
        simp only [compare_scores] at hc
        simp only [score_desc]
        omega
      rw [qsort_insert, if_neg hc]
      refine List.pairwise_cons.mpr ⟨?_, ih hxs⟩
      intro y hy
      rcases (mem_qsort_insert e y xs).mp hy with rfl | hy
      · exact hxe
      · exact hx y hy

theorem pairwise_qsort_scores (l : List ScoreEntry) :
    List.Pairwise score_desc (qsort_scores l) := by
  induction l with
  | nil => simp [qsort_scores]
  | cons x xs ih => exact pairwise_qsort_insert x _ ih

/-- C8: the report produced by the SIGUSR1 handler lists entries sorted in
descending order of score, contains at most five entries, and contains
only entries that are active or have a positive score; and in the
handler's action sequence the read of the score board falls strictly
between taking and releasing the score-board lock. -/
theorem sigusr1_report_top5_sorted (sb : List ScoreEntry) :
    List.Pairwise score_desc (sigusr1_report sb) ∧
    (sigusr1_report sb).length ≤ 5 ∧
    (∀ e, e ∈ sigusr1_report sb → 0 < e.score ∨ e.active = true) ∧
    handle_sigusr1_events.indexOf .lock_scoreboard <
      handle_sigusr1_events.indexOf .read_scoreboard ∧
    handle_sigusr1_events.indexOf .read_scoreboard <
      handle_sigusr1_events.indexOf .unlock_scoreboard := by
  refine ⟨?_, ?_, ?_, by decide, by decide⟩
  · exact ((pairwise_qsort_scores sb).filter _).sublist
      (List.take_sublist _ _)
  · simpa [sigusr1_report] using List.length_take_le 5 _
  · intro e he
    have hf := List.mem_of_mem_take he
    have := (List.mem_filter.mp hf).2
    simpa using this

/-- A concrete score board used in the C8 witness. -/
def wScoreboard : List ScoreEntry :=
  [⟨1, 5, false⟩, ⟨2, 7, true⟩, ⟨3, 0, false⟩]

/-- Witness for C8 on a three-entry board; entry ⟨2,7⟩ appears in the
report and satisfies the filter. -/
theorem sigusr1_report_top5_sorted_witness :
    List.Pairwise score_desc (sigusr1_report wScoreboard) ∧
    (sigusr1_report wScoreboard).length ≤ 5 ∧
    (0 < (⟨2, 7, true⟩ : ScoreEntry).score ∨
      (⟨2, 7, true⟩ : ScoreEntry).active = true) ∧
    handle_sigusr1_events.indexOf .lock_scoreboard <
      handle_sigusr1_events.indexOf .read_scoreboard ∧
    handle_sigusr1_events.indexOf .read_scoreboard <
      handle_sigusr1_events.indexOf .unlock_scoreboard := by
  have h := sigusr1_report_top5_sorted wScoreboard
  exact ⟨h.1, h.2.1, h.2.2.1 ⟨2, 7, true⟩ (by decide), h.2.2.2.1,
    h.2.2.2.2⟩

/-! ## The movement rule engine (board.c: `move_pacman`)

The board state mirrors `board_t` (board.h); cells mirror `board_pos_t`.
`rand()` in the 'R' branch is modelled by the extra oracle argument
`rand_val`.  The C function mutates the command struct in place in the
'T' branch, so the embedding returns the possibly-updated command. -/

structure BoardPosT where
  content : Char
  has_dot : Bool
  has_portal : Bool
deriving Repr, DecidableEq, Inhabited

structure GhostT where
  pos_x : Int
  pos_y : Int
  passo : Int
  moves : List Command
  n_moves : Int
  current_move : Int
  waiting : Int
  charged : Bool
deriving Repr, DecidableEq, Inhabited

structure BoardT where
  width : Int
  height : Int
  board : List BoardPosT
  n_pacmans : Int
  pacmans : List PacmanT
  n_ghosts : Int
  ghosts : List GhostT
  level_name : List Char
  tempo : Int
  level_finished : Bool
  shutdown : Bool
deriving Repr, DecidableEq, Inhabited

/-- board.c:40-42: the row-major linear index `y * width + x`. -/
def get_board_index (board : BoardT) (x y : Int) : Int :=
  y * board.width + x

/-- board.c:51-54. -/
def is_valid_position (board : BoardT) (x y : Int) : Bool :=
  (0 ≤ x && x < board.width) && (0 ≤ y && y < board.height)

def get_cell (b : BoardT) (idx : Int) : BoardPosT :=
  b.board.getD idx.toNat default

def set_cell (b : BoardT) (idx : Int) (c : BoardPosT) : BoardT :=
  { b with board := b.board.set idx.toNat c }

def set_pacman (b : BoardT) (i : Int) (p : PacmanT) : BoardT :=
  { b with pacmans := b.pacmans.set i.toNat p }

/-- board.c:469-479: clear the pacman's cell and mark it dead. -/
def kill_pacman (b : BoardT) (pacman_index : Int) : BoardT :=
  let pac := b.pacmans.getD pacman_index.toNat default
  let index := pac.pos_y * b.width + pac.pos_x
  set_pacman (set_cell b index { get_cell b index with content := ' ' })
    pacman_index { pac with alive := false }

/-- board.c:172-219, the tail of `move_pacman` after a W/A/S/D direction
has produced the target coordinates: boundary check, portal, wall, ghost
and dot handling.  `pac2` is the pacman with `waiting` and `current_move`
already written through. -/
def move_pacman_apply (board : BoardT) (pacman_index : Int)
    (pac2 : PacmanT) (new_x new_y : Int) (command : Command) :
    BoardT × Command × Int :=
  if is_valid_position board new_x new_y = false then
    (set_pacman board pacman_index pac2, command, INVALID_MOVE)
  else
    let new_index := get_board_index board new_x new_y
    let old_index := get_board_index board pac2.pos_x pac2.pos_y
    let target := get_cell board new_index
    if target.has_portal then
      let b1 := set_cell board old_index { get_cell board old_index with content := ' ' }
      let b2 := set_cell b1 new_index { get_cell b1 new_index with content := 'C' }
      let b3 := set_pacman b2 pacman_index { pac2 with pos_x := new_x, pos_y := new_y }
      ({ b3 with level_finished := true }, command, REACHED_PORTAL)
    else if target.content = 'W' ∨ target.content = 'X' then
      (set_pacman board pacman_index pac2, command, INVALID_MOVE)
    else if target.content = 'M' then
      (kill_pacman (set_pacman board pacman_index pac2) pacman_index,
        command, DEAD_PACMAN)
    else
      let pac3 := if target.has_dot then { pac2 with points := pac2.points + new_index } else pac2
      let b1 := if target.has_dot then set_cell board new_index { target with has_dot := false } else board
      let b2 := set_cell b1 old_index { get_cell b1 old_index with content := ' ' }
      let b3 := set_cell b2 new_index { get_cell b2 new_index with content := 'C' }
      (set_pacman b3 pacman_index { pac3 with pos_x := new_x, pos_y := new_y },
        command, VALID_MOVE)

/-- board.c:116-220 `move_pacman`, one step of the player entity. -/
def move_pacman (board : BoardT) (pacman_index : Int) (command : Command)
    (rand_val : Nat) : BoardT × Command × Int :=
  if pacman_index < 0 ∨
      (board.pacmans.getD pacman_index.toNat default).alive = false then
    (board, command, DEAD_PACMAN)
  else
    let pac0 := board.pacmans.getD pacman_index.toNat default
    if 0 < pac0.waiting then
      (set_pacman board pacman_index { pac0 with waiting := pac0.waiting - 1 },
        command, VALID_MOVE)
    else
      let pac1 := { pac0 with waiting := pac0.passo }
      let direction :=
        if command.command.toUpper = 'R' then
          ['W', 'S', 'A', 'D'].getD (rand_val % 4) 'W'
        else command.command.toUpper
      if direction = 'T' then
        if command.turns_left = 1 then
          (set_pacman board pacman_index { pac1 with current_move := pac1.current_move + 1 },
            { command with turns_left := command.turns }, VALID_MOVE)
        else
          (set_pacman board pacman_index pac1,
            { command with turns_left := command.turns_left - 1 }, VALID_MOVE)
      else if direction = 'W' ∨ direction = 'S' ∨ direction = 'A' ∨
          direction = 'D' then
        let new_x := pac1.pos_x +
          (if direction = 'A' then -1 else if direction = 'D' then 1 else 0)
        let new_y := pac1.pos_y +
          (if direction = 'W' then -1 else if direction = 'S' then 1 else 0)
        let pac2 := { pac1 with current_move := pac1.current_move + 1 }
        move_pacman_apply board pacman_index pac2 new_x new_y command
      else
        (set_pacman board pacman_index pac1, command, INVALID_MOVE)

theorem move_pacman_eq_apply (board : BoardT) (i : Int) (command : Command)
    (rand_val : Nat) (dir : Char)
    (hc1 : ¬(i < 0 ∨ (board.pacmans.getD i.toNat default).alive = false))
    (hc2 : ¬(0 < (board.pacmans.getD i.toNat default).waiting))
    (hdir : command.command.toUpper = dir)
    (hd : dir = 'W' ∨ dir = 'S' ∨ dir = 'A' ∨ dir = 'D') :
    move_pacman board i command rand_val =
      move_pacman_apply board i
        { board.pacmans.getD i.toNat default with waiting := (board.pacmans.getD i.toNat default).passo, current_move := (board.pacmans.getD i.toNat default).current_move + 1 }
        ((board.pacmans.getD i.toNat default).pos_x + (if dir = 'A' then -1 else if dir = 'D' then 1 else 0))
        ((board.pacmans.getD i.toNat default).pos_y + (if dir = 'W' then -1 else if dir = 'S' then 1 else 0))
        command := by
  rcases hd with rfl | rfl | rfl | rfl <;>
    (simp [move_pacman, hdir]
     rw [if_neg (by simpa using hc1), if_neg (by simpa using hc2)])

set_option maxHeartbeats 1000000 in
theorem move_pacman_apply_success (board : BoardT) (i : Int)
    (pac2 : PacmanT) (new_x new_y : Int) (command : Command)
    (hlen : i.toNat < board.pacmans.length)
    (hvalid : is_valid_position board new_x new_y = true)
    (hcl : (get_board_index board new_x new_y).toNat < board.board.length)
    (hnoportal : (get_cell board (get_board_index board new_x new_y)).has_portal = false)
    (hw : (get_cell board (get_board_index board new_x new_y)).content ≠ 'W')
    (hx : (get_cell board (get_board_index board new_x new_y)).content ≠ 'X')
    (hm : (get_cell board (get_board_index board new_x new_y)).content ≠ 'M')
    (hold2 : (get_board_index board pac2.pos_x pac2.pos_y).toNat ≠ (get_board_index board new_x new_y).toNat) :
    ((get_cell board (get_board_index board new_x new_y)).has_dot = true →
      ((move_pacman_apply board i pac2 new_x new_y command).1.pacmans.getD i.toNat default).points =
        pac2.points + get_board_index board new_x new_y ∧
      (get_cell (move_pacman_apply board i pac2 new_x new_y command).1
        (get_board_index board new_x new_y)).has_dot = false ∧
      (move_pacman_apply board i pac2 new_x new_y command).2.2 = VALID_MOVE) ∧
    ((get_cell board (get_board_index board new_x new_y)).has_dot = false →
      ((move_pacman_apply board i pac2 new_x new_y command).1.pacmans.getD i.toNat default).points = pac2.points ∧
      (move_pacman_apply board i pac2 new_x new_y command).2.2 = VALID_MOVE) := by
  have hv2 : ¬(is_valid_position board new_x new_y = false) := by
    simp [hvalid]
  have hnp : ¬((get_cell board (get_board_index board new_x new_y)).has_portal = true) := by
    simp [hnoportal]
  have hwx : ¬((get_cell board (get_board_index board new_x new_y)).content = 'W' ∨ (get_cell board (get_board_index board new_x new_y)).content = 'X') := by
    simp [hw, hx]
  constructor
  · intro hdot
    refine ⟨?_, ?_, ?_⟩
    · simp only [move_pacman_apply, if_neg hv2, if_neg hnp, if_neg hwx,
        if_neg hm, if_pos hdot]
      simp only [set_pacman, set_cell]
      rw [getD_set_self _ _ _ _ (by simpa using hlen)]
    · simp only [move_pacman_apply, if_neg hv2, if_neg hnp, if_neg hwx,
        if_neg hm, if_pos hdot]
      simp only [set_pacman, set_cell, get_cell]
      rw [getD_set_self _ _ _ _ (by simpa using hcl)]
      rw [getD_set_other _ _ _ _ _ hold2]
      rw [getD_set_self _ _ _ _ (by simpa using hcl)]
    · simp only [move_pacman_apply, if_neg hv2, if_neg hnp, if_neg hwx,
        if_neg hm, if_pos hdot]
  · intro hdot
    have hdot2 : ¬((get_cell board (get_board_index board new_x new_y)).has_dot = true) := by
      simp [hdot]
    refine ⟨?_, ?_⟩
    · simp only [move_pacman_apply, if_neg hv2, if_neg hnp, if_neg hwx,
        if_neg hm, if_neg hdot2]
      simp only [set_pacman, set_cell]
      rw [getD_set_self _ _ _ _ (by simpa using hlen)]
    · simp only [move_pacman_apply, if_neg hv2, if_neg hnp, if_neg hwx,
        if_neg hm, if_neg hdot2]


/-- C9: whenever `move_pacman` completes a successful step onto a
non-wall, non-ghost, non-portal cell, then: if the destination's dot flag
is set, the pacman's score increases by exactly the destination cell's
row-major linear index `y * width + x` (a position-dependent amount, not a
fixed per-dot value) and the destination's dot flag is cleared — so a
later step onto the same cell finds the flag clear and, as the second
conjunct shows, adds nothing; in both cases the move returns VALID_MOVE. -/
theorem move_pacman_dot_scoring (board : BoardT) (i : Int)
    (command : Command) (rand_val : Nat) (dir : Char) (new_x new_y : Int)
    (h0 : 0 ≤ i) (hlen : i.toNat < board.pacmans.length)
    (halive : (board.pacmans.getD i.toNat default).alive = true)
    (hwait : (board.pacmans.getD i.toNat default).waiting ≤ 0)
    (hdir : command.command.toUpper = dir)
    (hd : dir = 'W' ∨ dir = 'S' ∨ dir = 'A' ∨ dir = 'D')
    (hnx : new_x = (board.pacmans.getD i.toNat default).pos_x + (if dir = 'A' then -1 else if dir = 'D' then 1 else 0))
    (hny : new_y = (board.pacmans.getD i.toNat default).pos_y + (if dir = 'W' then -1 else if dir = 'S' then 1 else 0))
    (hvalid : is_valid_position board new_x new_y = true)
    (hcl : (get_board_index board new_x new_y).toNat < board.board.length)
    (hnoportal : (get_cell board (get_board_index board new_x new_y)).has_portal = false)
    (hw : (get_cell board (get_board_index board new_x new_y)).content ≠ 'W')
    (hx : (get_cell board (get_board_index board new_x new_y)).content ≠ 'X')
    (hm : (get_cell board (get_board_index board new_x new_y)).content ≠ 'M')
    (hold : (get_board_index board (board.pacmans.getD i.toNat default).pos_x (board.pacmans.getD i.toNat default).pos_y).toNat ≠ (get_board_index board new_x new_y).toNat) :
    ((get_cell board (get_board_index board new_x new_y)).has_dot = true →
      ((move_pacman board i command rand_val).1.pacmans.getD i.toNat default).points =
        (board.pacmans.getD i.toNat default).points +
          get_board_index board new_x new_y ∧
      (get_cell (move_pacman board i command rand_val).1
        (get_board_index board new_x new_y)).has_dot = false ∧
      (move_pacman board i command rand_val).2.2 = VALID_MOVE) ∧
    ((get_cell board (get_board_index board new_x new_y)).has_dot = false →
      ((move_pacman board i command rand_val).1.pacmans.getD i.toNat default).points =
        (board.pacmans.getD i.toNat default).points ∧
      (move_pacman board i command rand_val).2.2 = VALID_MOVE) := by
  have hc1 : ¬(i < 0 ∨
      (board.pacmans.getD i.toNat default).alive = false) := by
    push_neg
    exact ⟨by omega, by rw [halive]; decide⟩
  have hc2 : ¬(0 < (board.pacmans.getD i.toNat default).waiting) := by
    omega
  subst hnx hny
  rw [move_pacman_eq_apply board i command rand_val dir hc1 hc2 hdir hd]
  exact move_pacman_apply_success board i
    { board.pacmans.getD i.toNat default with waiting := (board.pacmans.getD i.toNat default).passo, current_move := (board.pacmans.getD i.toNat default).current_move + 1 }
    _ _ command hlen hvalid hcl hnoportal hw hx hm hold

/-- The 3x3 board used in the C9 witness: pacman at (1,1) with 10 points,
a dot at (2,1) whose linear index is 1*3+2 = 5. -/
def wPacman : PacmanT :=
  { pos_x := 1
    pos_y := 1
    alive := true
    points := 10
    passo := 0
    moves := []
    current_move := 0
    n_moves := 0
    waiting := 0
    next_user_move := ' ' }

def wBoard : BoardT :=
  { width := 3
    height := 3
    board := [⟨' ', false, false⟩, ⟨' ', false, false⟩, ⟨' ', false, false⟩, ⟨' ', false, false⟩, ⟨'C', false, false⟩, ⟨' ', true, false⟩, ⟨' ', false, false⟩, ⟨' ', false, false⟩, ⟨' ', false, false⟩]
    n_pacmans := 1
    pacmans := [wPacman]
    n_ghosts := 0
    ghosts := []
    level_name := []
    tempo := 100
    level_finished := false
    shutdown := false }

/-- Witness for C9: stepping right onto the dot at linear index 5 raises
the score from 10 to 10 + 5 and clears the dot. -/
theorem move_pacman_dot_scoring_witness :
    ((move_pacman wBoard 0 ⟨'d', 1, 1⟩ 0).1.pacmans.getD 0 default).points =
      (wBoard.pacmans.getD 0 default).points + get_board_index wBoard 2 1 ∧
    (get_cell (move_pacman wBoard 0 ⟨'d', 1, 1⟩ 0).1
      (get_board_index wBoard 2 1)).has_dot = false ∧
    (move_pacman wBoard 0 ⟨'d', 1, 1⟩ 0).2.2 = VALID_MOVE := by
  have h := move_pacman_dot_scoring wBoard 0 ⟨'d', 1, 1⟩ 0 'D' 2 1
    (by decide) (by decide) (by decide) (by decide) (by decide) (by decide)
    (by decide) (by decide) (by decide) (by decide) (by decide) (by decide)
    (by decide) (by decide) (by decide)
  exact h.1 (by decide)

/-! ## Level-file resolution (board.c: `sort_level_files`, `worker_task`)

A file name is a null-free list of characters (a C string cannot contain
an interior null byte).  `strstr` becomes a substring test, `strcmp` a
byte-wise comparison, and the exchange sort of `sort_level_files` — whose
pass `i` places the minimum of slots `i..count-1` at slot `i` — becomes a
selection sort producing the same ascending strcmp order. -/

/-- `strstr(s, pat) != NULL`. -/
def strstr_found (pat : List Char) : List Char → Bool
  | [] => pat.isEmpty
  | c :: t => pat.isPrefixOf (c :: t) || strstr_found pat t

/-- The worker's filter (board.c:1318):
`strstr(d_name, ".lvl") || strstr(d_name, ".txt")`. -/
def is_level_file (name : List Char) : Bool :=
  strstr_found ['.', 'l', 'v', 'l'] name ||
    strstr_found ['.', 't', 'x', 't'] name

/-- C `strcmp` on character lists (no interior nulls). -/
def cstrcmp : List Char → List Char → Int
  | [], [] => 0
  | [], b :: _ => -(b.toNat : Int)
  | a :: _, [] => (a.toNat : Int)
  | a :: as, b :: bs =>
    if a = b then cstrcmp as bs else (a.toNat : Int) - (b.toNat : Int)

/-- A C string has no interior null byte. -/
@[reducible]
def no_null (s : List Char) : Prop := ∀ c ∈ s, c.toNat ≠ 0

theorem char_toNat_inj {a b : Char} (h : a.toNat = b.toNat) : a = b := by
  have hab := Char.ofNat_toNat a
  rw [h, Char.ofNat_toNat] at hab
  exact hab.symm

theorem cstrcmp_self (a : List Char) : cstrcmp a a = 0 := by
  induction a with
  | nil => rfl
  | cons x xs ih => simp [cstrcmp, ih]

theorem cstrcmp_neg (a b : List Char) : cstrcmp a b = -cstrcmp b a := by
  induction a generalizing b with
  | nil => cases b <;> simp [cstrcmp]
  | cons x xs ih =>
    cases b with
    | nil => simp [cstrcmp]
    | cons y ys =>
      by_cases h : x = y
      · subst h
        simp [cstrcmp, ih]
      · simp [cstrcmp, h, Ne.symm h]

theorem cstrcmp_trans {a b c : List Char} (ha : no_null a)
    (h1 : cstrcmp a b ≤ 0) (h2 : cstrcmp b c ≤ 0) : cstrcmp a c ≤ 0 := by
  induction a generalizing b c with
  | nil =>
    cases c with
    | nil => simp [cstrcmp]
    | cons z zs => simp [cstrcmp]
  | cons x xs ih =>
    cases b with
    | nil =>
      exfalso
      simp [cstrcmp] at h1
      exact ha x (by simp) (by omega)
    | cons y ys =>
      cases c with
      | nil =>
        simp [cstrcmp] at h2 ⊢
        by_cases h : x = y
        · subst h
          omega
        · simp [cstrcmp, h] at h1
          omega
      | cons z zs =>
        by_cases hxy : x = y
        · subst hxy
          by_cases hxz : x = z
          · subst hxz
            simp [cstrcmp] at h1 h2 ⊢
            exact ih (fun c hc => ha c (by simp [hc])) h1 h2
          · simp [cstrcmp, hxz] at h2 ⊢
            omega
        · by_cases hyz : y = z
          · subst hyz
            simp [cstrcmp, hxy] at h1 ⊢
            omega
          · by_cases hxz : x = z
            · subst hxz
              exfalso
              simp [cstrcmp, hxy, hyz] at h1 h2
              have : x.toNat = y.toNat := by omega
              exact hxy (char_toNat_inj this)
            · simp [cstrcmp, hxy, hyz, hxz] at h1 h2 ⊢
              omega

theorem cstrcmp_eq {a b : List Char} (ha : no_null a) (hb : no_null b)
    (h1 : cstrcmp a b ≤ 0) (h2 : cstrcmp b a ≤ 0) : a = b := by
  induction a generalizing b with
  | nil =>
    cases b with
    | nil => rfl
    | cons y ys =>
      exfalso
      simp [cstrcmp] at h1 h2
      exact hb y (by simp) (by omega)
  | cons x xs ih =>
    cases b with
    | nil =>
      exfalso
      simp [cstrcmp] at h1 h2
      exact ha x (by simp) (by omega)
    | cons y ys =>
      by_cases h : x = y
      · subst h
        simp [cstrcmp] at h1 h2
        rw [ih (fun c hc => ha c (by simp [hc]))
          (fun c hc => hb c (by simp [hc])) h1 h2]
      · exfalso
        simp [cstrcmp, h, Ne.symm h] at h1 h2
        have : x.toNat = y.toNat := by omega
        exact h (char_toNat_inj this)

/-- One pass of `sort_level_files`' exchange sort (board.c:1207-1218):
pass `i` compares slot `i` with every later slot and swaps on
`strcmp > 0`, leaving the minimum of slots `i..count-1` in slot `i`. -/
def select_min (x : List Char) : List (List Char) →
    List Char × List (List Char)
  | [] => (x, [])
  | y :: ys =>
    if 0 < cstrcmp x y then
      ((select_min y ys).1, x :: (select_min y ys).2)
    else
      ((select_min x ys).1, y :: (select_min x ys).2)

def sort_level_files_aux : Nat → List (List Char) → List (List Char)
  | 0, l => l
  | _ + 1, [] => []
  | n + 1, x :: xs =>
    (select_min x xs).1 :: sort_level_files_aux n (select_min x xs).2

/-- board.c:1207-1218 `sort_level_files`: the exchange sort runs one
minimum-selecting pass per slot. -/
def sort_level_files (files : List (List Char)) : List (List Char) :=
  sort_level_files_aux files.length files

theorem select_min_snd_length (x : List Char) (l : List (List Char)) :
    (select_min x l).2.length = l.length := by
  induction l generalizing x with
  | nil => rfl
  | cons y ys ih =>
    by_cases h : 0 < cstrcmp x y <;>
      simp [select_min, h, ih]

theorem select_min_perm (x : List Char) (l : List (List Char)) :
    List.Perm ((select_min x l).1 :: (select_min x l).2) (x :: l) := by
  induction l generalizing x with
  | nil => simp [select_min]
  | cons y ys ih =>
    by_cases h : 0 < cstrcmp x y
    · simp only [select_min, if_pos h]
      exact (List.Perm.swap x (select_min y ys).1 _).trans ((ih y).cons x)
    · simp only [select_min, if_neg h]
      exact ((List.Perm.swap y (select_min x ys).1 _).trans
        ((ih x).cons y)).trans (List.Perm.swap x y ys)

theorem select_min_mem (x : List Char) (l : List (List Char)) :
    (select_min x l).1 ∈ x :: l :=
  (select_min_perm x l).subset (by simp)

theorem select_min_le (x : List Char) (l : List (List Char))
    (hall : ∀ s ∈ x :: l, no_null s) :
    cstrcmp (select_min x l).1 x ≤ 0 ∧
    ∀ y ∈ l, cstrcmp (select_min x l).1 y ≤ 0 := by
  induction l generalizing x with
  | nil =>
    refine ⟨by simp [select_min, cstrcmp_self], by simp⟩
  | cons y ys ih =>
    by_cases h : 0 < cstrcmp x y
    · have ihy := ih y (fun s hs => hall s (by
        simp only [List.mem_cons] at hs ⊢
        tauto))
      have hmnn : no_null (select_min y ys).1 := by
        refine hall _ ?_
        have hmem := select_min_mem y ys
        simp only [List.mem_cons] at hmem ⊢
        tauto
      have hyx : cstrcmp y x ≤ 0 := by
        rw [cstrcmp_neg]
        omega
      have hmx : cstrcmp (select_min y ys).1 x ≤ 0 :=
        cstrcmp_trans hmnn ihy.1 hyx
      simp only [select_min, if_pos h]
      refine ⟨hmx, ?_⟩
      intro z hz
      rcases List.mem_cons.mp hz with rfl | hz
      · exact ihy.1
      · exact ihy.2 z hz
    · have ihx := ih x (fun s hs => hall s (by
        simp only [List.mem_cons] at hs ⊢
        tauto))
      have hmnn : no_null (select_min x ys).1 := by
        refine hall _ ?_
        have hmem := select_min_mem x ys
        simp only [List.mem_cons] at hmem ⊢
        tauto
      have hxy : cstrcmp x y ≤ 0 := by omega
      have hmy : cstrcmp (select_min x ys).1 y ≤ 0 :=
        cstrcmp_trans hmnn ihx.1 hxy
      simp only [select_min, if_neg h]
      refine ⟨ihx.1, ?_⟩
      intro z hz
      rcases List.mem_cons.mp hz with rfl | hz
      · exact hmy
      · exact ihx.2 z hz

theorem sort_level_files_aux_perm (n : Nat) (l : List (List Char))
    (h : l.length ≤ n) : List.Perm (sort_level_files_aux n l) l := by
  induction n generalizing l with
  | zero => simp [sort_level_files_aux]
  | succ n ih =>
    cases l with
    | nil => simp [sort_level_files_aux]
    | cons x xs =>
      simp only [sort_level_files_aux]
      have hlen : (select_min x xs).2.length ≤ n := by
        rw [select_min_snd_length]
        simpa using h
      exact ((ih _ hlen).cons _).trans (select_min_perm x xs)

theorem sort_level_files_aux_sorted (n : Nat) (l : List (List Char))
    (h : l.length ≤ n) (hall : ∀ s ∈ l, no_null s) :
    List.Pairwise (fun a b => cstrcmp a b ≤ 0)
      (sort_level_files_aux n l) := by
  induction n generalizing l with
  | zero =>
    have hnil : l = [] := by
      cases l with
      | nil => rfl
      | cons x xs => simp at h
    simp [hnil, sort_level_files_aux]
  | succ n ih =>
    cases l with
    | nil => simp [sort_level_files_aux]
    | cons x xs =>
      simp only [sort_level_files_aux]
      have hlen : (select_min x xs).2.length ≤ n := by
        rw [select_min_snd_length]
        simpa using h
      have hsub : ∀ s ∈ (select_min x xs).2, s ∈ x :: xs :=
        fun s hs => (select_min_perm x xs).subset (by simp [hs])
      refine List.pairwise_cons.mpr
        ⟨?_, ih _ hlen (fun s hs => hall s (hsub s hs))⟩
      intro z hz
      have hz2 : z ∈ (select_min x xs).2 :=
        (sort_level_files_aux_perm n _ hlen).subset hz
      have hle := select_min_le x xs hall
      rcases List.mem_cons.mp (hsub z hz2) with rfl | hzx
      · exact hle.1
      · exact hle.2 z hzx

theorem sorted_eq_of_perm : ∀ {l1 l2 : List (List Char)},
    List.Perm l1 l2 →
    List.Pairwise (fun a b => cstrcmp a b ≤ 0) l1 →
    List.Pairwise (fun a b => cstrcmp a b ≤ 0) l2 →
    (∀ s ∈ l1, no_null s) → l1 = l2 := by
  intro l1
  induction l1 with
  | nil =>
    intro l2 hp _ _ _
    simpa using hp.symm.eq_nil
  | cons a t1 ih =>
    intro l2 hp hs1 hs2 hall
    cases l2 with
    | nil => simp at hp
    | cons b t2 =>
      have hab : a = b := by
        have ha2 : a ∈ b :: t2 := hp.subset (by simp)
        have hb1 : b ∈ a :: t1 := hp.symm.subset (by simp)
        rcases List.mem_cons.mp ha2 with rfl | ha2
        · rfl
        · rcases List.mem_cons.mp hb1 with heq | hb1
          · exact heq.symm
          · exact cstrcmp_eq (hall a (by simp)) (hall b (by simp [hb1]))
              ((List.pairwise_cons.mp hs1).1 b hb1)
              ((List.pairwise_cons.mp hs2).1 a ha2)
      subst hab
      rw [ih hp.cons_inv (List.pairwise_cons.mp hs1).2
        (List.pairwise_cons.mp hs2).2 (fun s hs => hall s (by simp [hs]))]

/-- The worker's stage-list resolution (board.c:1306-1332): scan the
directory listing, keeping names that contain ".lvl" or ".txt" until 32
have been kept (`level_count < 32` bounds the loop), build
`"levels_dir/name"` paths, and sort them with `sort_level_files`. -/
def resolve_level_files (levels_dir : List Char)
    (dir_listing : List (List Char)) : List (List Char) :=
  sort_level_files
    (((dir_listing.filter is_level_file).take 32).map
      (fun name => levels_dir ++ '/' :: name))

theorem no_null_path (d n : List Char) (hd : no_null d) (hn : no_null n) :
    no_null (d ++ '/' :: n) := by
  intro c hc
  rcases List.mem_append.mp hc with hcd | hcn
  · exact hd c hcd
  · rcases List.mem_cons.mp hcn with rfl | hcn
    · decide
    · exact hn c hcn

theorem resolve_no_null (levels_dir : List Char)
    (listing : List (List Char)) (hdirnn : no_null levels_dir)
    (hnn : ∀ name ∈ listing, no_null name) :
    ∀ s ∈ ((listing.filter is_level_file).take 32).map
      (fun name => levels_dir ++ '/' :: name), no_null s := by
  intro s hs
  rcases List.mem_map.mp hs with ⟨name, hname, rfl⟩
  have : name ∈ listing :=
    List.mem_of_mem_filter (List.mem_of_mem_take hname)
  exact no_null_path _ _ hdirnn (hnn name this)

/-- C10 (amended): for every dequeued session the worker resolves at most
32 stage files — the first 32 names in directory-listing order that
contain ".lvl" or ".txt" — and runs them in ascending lexicographic
(strcmp) order of their full `levels_dir/name` paths; when the directory
holds at most 32 matching names, the resulting stage order is furthermore
independent of the order in which the directory listing presents them. -/
theorem worker_level_resolution (levels_dir : List Char)
    (listing : List (List Char)) (hdirnn : no_null levels_dir)
    (hnn : ∀ name ∈ listing, no_null name) :
    (resolve_level_files levels_dir listing).length ≤ 32 ∧
    List.Pairwise (fun a b => cstrcmp a b ≤ 0)
      (resolve_level_files levels_dir listing) ∧
    ((listing.filter is_level_file).length ≤ 32 →
      ∀ listing2, List.Perm listing2 listing →
        (∀ name ∈ listing2, no_null name) →
        resolve_level_files levels_dir listing2 =
          resolve_level_files levels_dir listing) := by
  refine ⟨?_, ?_, ?_⟩
  · rw [resolve_level_files, sort_level_files,
      (sort_level_files_aux_perm _ _ le_rfl).length_eq]
    simp [List.length_take]
  · exact sort_level_files_aux_sorted _ _ le_rfl
      (resolve_no_null levels_dir listing hdirnn hnn)
  · intro hle listing2 hp hnn2
    have hpf : List.Perm (listing2.filter is_level_file)
        (listing.filter is_level_file) := hp.filter _
    have hle2 : (listing2.filter is_level_file).length ≤ 32 := by
      rw [hpf.length_eq]
      exact hle
    have ht1 : (listing.filter is_level_file).take 32 =
        listing.filter is_level_file := List.take_of_length_le hle
    have ht2 : (listing2.filter is_level_file).take 32 =
        listing2.filter is_level_file := List.take_of_length_le hle2
    have hpm : List.Perm
        (((listing2.filter is_level_file).take 32).map
          (fun name => levels_dir ++ '/' :: name))
        (((listing.filter is_level_file).take 32).map
          (fun name => levels_dir ++ '/' :: name)) := by
      rw [ht1, ht2]
      exact hpf.map _
    have hs2 := sort_level_files_aux_sorted
      ((((listing2.filter is_level_file).take 32).map
        (fun name => levels_dir ++ '/' :: name)).length) _ le_rfl
      (resolve_no_null levels_dir listing2 hdirnn hnn2)
    have hs1 := sort_level_files_aux_sorted
      ((((listing.filter is_level_file).take 32).map
        (fun name => levels_dir ++ '/' :: name)).length) _ le_rfl
      (resolve_no_null levels_dir listing hdirnn hnn)
    have hperm : List.Perm (resolve_level_files levels_dir listing2)
        (resolve_level_files levels_dir listing) := by
      rw [resolve_level_files, resolve_level_files, sort_level_files,
        sort_level_files]
      exact ((sort_level_files_aux_perm _ _ le_rfl).trans hpm).trans
        (sort_level_files_aux_perm _ _ le_rfl).symm
    refine sorted_eq_of_perm hperm hs2 hs1 ?_
    intro s hs
    have : s ∈ ((listing2.filter is_level_file).take 32).map
        (fun name => levels_dir ++ '/' :: name) :=
      (sort_level_files_aux_perm _ _ le_rfl).subset hs
    exact resolve_no_null levels_dir listing2 hdirnn hnn2 s this

/-- The i-th two-letter ".txt" name, `aa.txt`, `ab.txt`, ... -/
def cname (i : Nat) : List Char :=
  [Char.ofNat (97 + i / 26), Char.ofNat (97 + i % 26), '.', 't', 'x', 't']

/-- A directory listing with 33 matching names, in ascending order. -/
def wListingA : List (List Char) := (List.range 33).map cname

/-- The same directory contents listed with the last name first. -/
def wListingB : List (List Char) :=
  cname 32 :: (List.range 32).map cname

/-- Counterexample to C10 as stated: with 33 matching names in the levels
directory, two listing orders of the same directory contents resolve to
different stage lists — only the first 32 names in listing order are
kept, so the stage order is not independent of the directory-listing
order. -/
theorem worker_level_resolution_counterexample :
    List.Perm wListingB wListingA ∧
    resolve_level_files ['l'] wListingA ≠
      resolve_level_files ['l'] wListingB := by
  constructor
  · decide
  · decide

/-- Witness for the amended C10 on a three-entry listing (two matching
names): both orders resolve to the same sorted stage list. -/
theorem worker_level_resolution_witness :
    (resolve_level_files ['l'] [['b', '.', 't', 'x', 't'], ['a', '.', 'l', 'v', 'l'], ['x']]).length ≤ 32 ∧
    List.Pairwise (fun a b => cstrcmp a b ≤ 0)
      (resolve_level_files ['l'] [['b', '.', 't', 'x', 't'], ['a', '.', 'l', 'v', 'l'], ['x']]) ∧
    resolve_level_files ['l'] [['a', '.', 'l', 'v', 'l'], ['x'], ['b', '.', 't', 'x', 't']] =
      resolve_level_files ['l'] [['b', '.', 't', 'x', 't'], ['a', '.', 'l', 'v', 'l'], ['x']] := by
  have h := worker_level_resolution ['l']
    [['b', '.', 't', 'x', 't'], ['a', '.', 'l', 'v', 'l'], ['x']]
    (by decide) (by decide)
  exact ⟨h.1, h.2.1,
    h.2.2 (by decide) [['a', '.', 'l', 'v', 'l'], ['x'], ['b', '.', 't', 'x', 't']]
      (by decide) (by decide)⟩

end PacmanIST
